import Mathlib

/-!
# Verification of the `network` package of the noise p2p runtime

Shallow embedding of `src/network/network.go` (package `network`) in Lean 4.
Pure data (protobuf messages, identities) becomes Lean structures; the
stateful engine (`Network`, `ConnState`, the peer registry) becomes explicit
state passing; fallible operations return `Except`/`Option`.

Parts of the repository that the claims depend on but that are not under
`src/` (the framing codec `receiveMessage`/`sendMessage`, the `PeerClient`
type with `Tell`, `SerializeMessage`, address canonicalization, and the
crypto policy interfaces) are modelled from the spec; each such definition
carries a doc comment starting with `Modelled from the spec:`.

Machine integers: the per-connection `messageNonce` is a Go `uint64`
mutated by `atomic.AddUint64`; it is embedded as `Nat` with an explicit
`% 2^64`.
-/

namespace Noise

/-- Raw bytes (`[]byte` in Go) as a list of byte values. -/
abbrev Bytes := List Nat

/-- `types.Any` (gogo/protobuf): a type URL plus opaque value bytes. -/
structure AnyMsg where
  typeUrl : String
  value : Bytes
deriving DecidableEq, Repr

/-- `peer.ID` / `protobuf.ID`: a public key plus an address string.
The Go code freely converts between the two representations. -/
structure PeerID where
  publicKey : Bytes
  address : String
deriving DecidableEq, Repr

/-- `protobuf.Message`: the signed wire envelope. -/
structure Message where
  message : AnyMsg
  sender : PeerID
  signature : Bytes
  messageNonce : Nat
  requestNonce : Nat
  replyFlag : Bool
deriving DecidableEq, Repr

/-- The typed payloads the dispatch path distinguishes: `protobuf.Bytes`
(handled in-band by `handleBytes`), `protobuf.Ping` (used by `Bootstrap`),
and a stand-in for every other registered payload kind (such as the test
suite's `test.TestMessage`), which goes to plugin fan-out. -/
inductive Payload where
  | bytes (data : Bytes)
  | ping
  | test (data : Bytes)
deriving DecidableEq, Repr

/-- Modelled from the spec: `types.MarshalAny` (gogo/protobuf, external to
`src/`) packages a typed payload as a type URL plus value bytes. -/
def MarshalAny : Payload → AnyMsg
  | .bytes d => ⟨"protobuf.Bytes", d⟩
  | .ping => ⟨"protobuf.Ping", []⟩
  | .test d => ⟨"test.TestMessage", d⟩

/-- Modelled from the spec: `types.UnmarshalAny` decodes the opaque payload
back to its typed form; an unregistered type URL fails to decode. -/
def UnmarshalAny (a : AnyMsg) : Option Payload :=
  if a.typeUrl = "protobuf.Bytes" then some (.bytes a.value)
  else if a.typeUrl = "protobuf.Ping" then
    if a.value = [] then some .ping else none
  else if a.typeUrl = "test.TestMessage" then some (.test a.value)
  else none

/-- Modelled from the spec: the node's hash policy (e.g. blake2b), an
abstract injective digest; embedded as a length-tagged copy of the input. -/
def hashPolicy (data : Bytes) : Bytes :=
  data.length :: data

/-- Modelled from the spec: derivation of a public key from a private key
by the signature policy (e.g. ed25519); any injective derivation serves. -/
def publicKeyOf (priv : Bytes) : Bytes :=
  0 :: priv

/-- Modelled from the spec: `crypto.KeyPair.Sign(signaturePolicy,
hashPolicy, data)` hashes `data` with the hash policy and signs the digest
with the private key under the signature policy. -/
def signData (priv : Bytes) (data : Bytes) : Bytes :=
  priv ++ hashPolicy data

/-- Modelled from the spec: signature verification under a public key; the
verifier derives the key from the envelope's declared sender key. -/
def verifyData (pub : Bytes) (data : Bytes) (sig : Bytes) : Bool :=
  sig == pub.tail ++ hashPolicy data

/-- Modelled from the spec: `SerializeMessage(id, payload)` —
the canonical serialization of the sender identity concatenated with the
raw payload bytes; this is what the signature covers. -/
def SerializeMessage (id : PeerID) (payload : Bytes) : Bytes :=
  (id.address.toList.map Char.toNat) ++ id.publicKey ++ payload

/-- Modelled from the spec: the signature check `receiveMessage` performs
on every inbound envelope, using the envelope's declared sender key.
Note that it covers only the sender identity and payload bytes — not the
message nonce, request nonce or reply flag. -/
def verifyMessage (msg : Message) : Bool :=
  verifyData msg.sender.publicKey
    (SerializeMessage msg.sender msg.message.value) msg.signature

/-- `ConnState` (network.go lines 89–94): per-session connection state.
`conn` is an opaque socket handle; the buffered writer is embedded as the
list of frames appended to it by (modelled) `sendMessage`; `writerMutex`
is a concurrency artifact with no sequential content. -/
structure ConnState where
  connId : Nat
  sent : List Message
  messageNonce : Nat
deriving DecidableEq, Repr

/-- Modelled from the spec: the `PeerClient` (client.go, not under `src/`)
restricted to the fields the claims touch: its address, learned ID, the two
one-shot readiness gates, the set of registered request nonces (the domain
of `Requests`), and whether the close signal observed by reply-waiters has
fired. -/
structure PeerClient where
  address : String
  id : Option PeerID
  outgoingReady : Bool
  incomingReady : Bool
  requests : List Nat
  closeSignalFired : Bool
deriving DecidableEq, Repr

/-- Modelled from the spec: `createPeerClient` — a fresh `PeerClient` with
both one-shot gates unsignaled, no learned ID and no outstanding requests. -/
def createPeerClient (address : String) : PeerClient :=
  { address := address, id := none, outgoingReady := false,
    incomingReady := false, requests := [], closeSignalFired := false }

/-- The `Network` engine state (network.go lines 42–75) restricted to the
sequentially meaningful parts, plus the external environment: `dialConn`
is the transport's answer to `Dial` (out-of-scope collaborator) and
`sendFails` says which addresses currently fail on socket writes. -/
structure Network where
  keysPriv : Bytes
  Address : String
  ID : PeerID
  Peers : List (String × PeerClient)
  Connections : List (String × ConnState)
  dialConn : String → Option Nat
  sendFails : String → Bool

/-- Association-list lookup, standing for `sync.Map.Load`. -/
def mapLoad {α : Type} (m : List (String × α)) (k : String) : Option α :=
  match m with
  | [] => none
  | (k', v) :: rest => if k' = k then some v else mapLoad rest k

/-- Association-list store, standing for `sync.Map.Store`. -/
def mapStore {α : Type} (m : List (String × α)) (k : String) (v : α) :
    List (String × α) :=
  match m with
  | [] => [(k, v)]
  | (k', v') :: rest =>
      if k' = k then (k, v) :: rest else (k', v') :: mapStore rest k v

/-- Association-list delete, standing for `sync.Map.Delete`. -/
def mapDelete {α : Type} (m : List (String × α)) (k : String) :
    List (String × α) :=
  match m with
  | [] => []
  | (k', v') :: rest =>
      if k' = k then mapDelete rest k else (k', v') :: mapDelete rest k

/-- `PrepareMessage` (network.go lines 420–447): marshal the payload,
sign `SerializeMessage(id, raw.Value)` with the node's keys, and build the
envelope. `none` stands for Go's `nil` message. -/
def Network.PrepareMessage (n : Network) (message : Option Payload) :
    Except String Message :=
  match message with
  | none => .error "network: message is null"
  | some m =>
      let raw := MarshalAny m
      let id := n.ID
      let sig := signData n.keysPriv (SerializeMessage id raw.value)
      .ok { message := raw, sender := id, signature := sig,
            messageNonce := 0, requestNonce := 0, replyFlag := false }

/-- Modelled from the spec: `sendMessage(writer, message, mutex)` —
serializes and appends one frame to the buffered writer, failing with a
`WriteError` on I/O failure (here: when the environment marks the address
as failing). -/
def sendMessage (n : Network) (address : String) (state : ConnState)
    (message : Message) : Except String ConnState :=
  if n.sendFails address then .error "network: write error"
  else .ok { state with sent := state.sent ++ [message] }

/-- `Write` (network.go lines 450–466): look up the `ConnState` for the
address (error `connection does not exist` otherwise), assign
`message.MessageNonce = atomic.AddUint64(&state.messageNonce, 1)` (a
`uint64`, hence the `% 2^64`), then frame-send. The nonce is consumed even
if the send fails, exactly as in the source, where the mutation precedes
`sendMessage`. Returns the updated network and the mutated message. -/
def Network.Write (n : Network) (address : String) (message : Message) :
    Network × Except String Message :=
  match mapLoad n.Connections address with
  | none => (n, .error "network: connection does not exist")
  | some state =>
      let nonce := (state.messageNonce + 1) % 2 ^ 64
      let message' := { message with messageNonce := nonce }
      let state' := { state with messageNonce := nonce }
      match sendMessage n address state' message' with
      | .error e =>
          ({ n with Connections := mapStore n.Connections address state' },
           .error e)
      | .ok state'' =>
          ({ n with Connections := mapStore n.Connections address state'' },
           .ok message')

/-- Iterated `Write` of several messages to one address, threading the
engine state; records each call's result in order. -/
def Network.writeAll (n : Network) (address : String) (msgs : List Message) :
    Network × List (Except String Message) :=
  match msgs with
  | [] => (n, [])
  | m :: rest =>
      let (n', r) := n.Write address m
      let (n'', rs) := n'.writeAll address rest
      (n'', r :: rs)

/-- The observable effect of one `dispatchMessage` call: each constructor
is one of the disjoint exits of the function body (network.go 129–171). -/
inductive DispatchEffect where
  | dropNotReady
  | logDecodeError
  | replyDelivered (nonce : Nat) (payload : Payload)
  | replyDroppedClosed (nonce : Nat)
  | handleBytes (data : Bytes)
  | pluginDispatch (payload : Payload) (nonce : Nat)
deriving DecidableEq, Repr

/-- The `switch` at the end of `dispatchMessage` (network.go 151–170): a
`protobuf.Bytes` payload is handled in-band by `client.handleBytes`; any
other payload is handed to the plugin fan-out with the request nonce. -/
def dispatchSwitch (p : Payload) (nonce : Nat) : DispatchEffect :=
  match p with
  | .bytes d => .handleBytes d
  | p => .pluginDispatch p nonce

/-- `dispatchMessage` (network.go 129–171). If the client's incoming gate
is not signaled, return with no effect. Decode the opaque payload; on
failure log and return. If `RequestNonce > 0 && ReplyFlag` and a
`RequestState` is registered under that nonce, the Go `select` delivers
into `state.data` unless `state.closeSignal` is already closed, and
returns; otherwise fall through to the payload switch. -/
def Network.dispatchMessage (client : PeerClient) (msg : Message) :
    DispatchEffect :=
  if !client.incomingReady then .dropNotReady
  else
    match UnmarshalAny msg.message with
    | none => .logDecodeError
    | some p =>
        if msg.requestNonce > 0 ∧ msg.replyFlag then
          if msg.requestNonce ∈ client.requests then
            if client.closeSignalFired then .replyDroppedClosed msg.requestNonce
            else .replyDelivered msg.requestNonce p
          else dispatchSwitch p msg.requestNonce
        else dispatchSwitch p msg.requestNonce

/-- Modelled from the spec: the result of one `receiveMessage` call on a
connection — a verified envelope, the `errEmptyMsg` sentinel for a
zero-length frame, or a read/deserialize/signature error. -/
inductive RecvResult where
  | msg (m : Message)
  | emptyMsg
  | readErr (e : String)
deriving DecidableEq, Repr

/-- The read loop of `Accept` (network.go 364–371), run over a finite
prefix of the connection's `receiveMessage` results. Returns the messages
handed to the per-message goroutine (in order), the errors logged, and
whether the loop broke out (after which the deferred cleanup closes the
`PeerClient` and both connections). An exhausted prefix without a break
means the loop is still blocked reading. -/
def acceptReadLoop : List RecvResult → List Message × List String × Bool
  | [] => ([], [], false)
  | .msg m :: rest =>
      let (ms, ls, b) := acceptReadLoop rest
      (m :: ms, ls, b)
  | .emptyMsg :: _ => ([], [], true)
  | .readErr e :: _ => ([], [e], true)

/-- Modelled from the spec: `peer.ID.Equals` — two identities are equal
iff their public keys are equal. -/
def idEquals (a b : PeerID) : Bool :=
  a.publicKey == b.publicKey

/-- One per-message step of `Accept` (network.go 373–406), after a
successful `clientInit`: the first message learns the client's ID from its
sender; a later message is submitted to the per-peer ordered executor only
when its sender equals the learned ID (`client.ID.Equals`), and is dropped
(logged, no state change) otherwise. Returns the learned ID and whether
the message was submitted. -/
def acceptStep (learned : Option PeerID) (msg : Message) :
    Option PeerID × Bool :=
  match learned with
  | none => (some msg.sender, true)
  | some id => (some id, idEquals id msg.sender)

/-- `acceptStep` folded over the received messages in order; collects the
messages submitted to the ordered executor (those that reach
`dispatchMessage`). -/
def acceptRun (learned : Option PeerID) :
    List Message → Option PeerID × List Message
  | [] => (learned, [])
  | m :: rest =>
      let (l', sub) := acceptStep learned m
      let (lf, subs) := acceptRun l' rest
      (lf, (if sub then [m] else []) ++ subs)

/-- Modelled from the spec: `ToUnifiedAddress` canonicalizes an address.
The claims quantify over already-canonical addresses, so canonicalization
is the identity and never fails here. -/
def ToUnifiedAddress (address : String) : Option String :=
  some address

/-- `Dial` (network.go 311–339): parse the address, rewrite the host to
`127.0.0.1` when it equals the node's own host, and dial through the
transport. The transports are out-of-scope collaborators; the environment
field `dialConn` gives the transport's answer for the dial target, and no
claim depends on the rewrite, so the target is the address itself. -/
def Network.Dial (n : Network) (address : String) : Except String Nat :=
  match n.dialConn address with
  | none => .error "network: dial failed"
  | some c => .ok c

/-- `Client` (network.go 236–282): canonicalize; refuse self-dial;
`LoadOrStore` a fresh client. If the entry existed, return it when its
outgoing gate is signaled (error otherwise). If the entry is new, dial:
on failure delete the entry from the registry and return the error (the
deferred `close(client.outgoingReady)` fires on the discarded client); on
success store a fresh `ConnState`, run `client.Init()`, and signal the
outgoing gate. -/
def Network.Client (n : Network) (address : String) :
    Network × Except String PeerClient :=
  match ToUnifiedAddress address with
  | none => (n, .error "network: invalid address")
  | some address =>
      if address = n.Address then
        (n, .error "network: peer should not dial itself")
      else
        let clientNew := createPeerClient address
        match mapLoad n.Peers address with
        | some client =>
            if client.outgoingReady then (n, .ok client)
            else (n, .error "network: peer failed to connect")
        | none =>
            let n1 := { n with Peers := mapStore n.Peers address clientNew }
            match n1.Dial address with
            | .error e =>
                ({ n1 with Peers := mapDelete n1.Peers address }, .error e)
            | .ok conn =>
                let st : ConnState :=
                  { connId := conn, sent := [], messageNonce := 0 }
                let client := { clientNew with outgoingReady := true }
                ({ n1 with
                    Connections := mapStore n1.Connections address st,
                    Peers := mapStore n1.Peers address client },
                 .ok client)

/-- Modelled from the spec: `PeerClient.Tell` (client.go, not under
`src/`) — prepare and sign an envelope with `request_nonce = 0`, then
write it to the peer's `ConnState`; fails with `PeerNotReady` when the
outgoing gate is not signaled, or with the write's error. -/
def PeerClient.Tell (client : PeerClient) (n : Network)
    (message : Option Payload) : Network × Except String Message :=
  if !client.outgoingReady then (n, .error "network: peer not ready")
  else
    match n.PrepareMessage message with
    | .error e => (n, .error e)
    | .ok signed => n.Write client.address signed

/-- The warning line `Broadcast` logs for one failed `Tell`. -/
def logLine (address e : String) : String :=
  "failed to send message to peer " ++ address ++ " [err=" ++ e ++ "]"

/-- The `Range` body of `Broadcast` (network.go 470–479) unrolled over the
registry list: `Tell` each peer, append a warning on failure, and always
continue with the next peer. -/
def broadcastFold (message : Option Payload) (acc : Network × List String) :
    List (String × PeerClient) → Network × List String
  | [] => acc
  | kv :: rest =>
      match kv.2.Tell acc.1 message with
      | (net', .error e) =>
          broadcastFold message (net', acc.2 ++ [logLine kv.2.address e]) rest
      | (net', .ok _) => broadcastFold message (net', acc.2) rest

/-- `Broadcast` (network.go 469–480): `Range` over the peer registry; on
each peer call `Tell`, log a warning on failure, and always return `true`
so the iteration continues. Returns the engine state and the log lines. -/
def Network.Broadcast (n : Network) (message : Option Payload) :
    Network × List String :=
  broadcastFold message (n, []) n.Peers

/-- `BroadcastByAddresses` (network.go 483–492): prepare and sign the
envelope once; on a prepare error return silently; otherwise `Write` the
one signed envelope to every address in turn, discarding each `Write`'s
result. Returns the engine state and the log lines (none are produced). -/
def Network.BroadcastByAddresses (n : Network) (message : Option Payload)
    (addresses : List String) : Network × List String :=
  match n.PrepareMessage message with
  | .error _ => (n, [])
  | .ok signed =>
      (addresses.foldl (fun net address => (net.Write address signed).1) n,
       [])

/-- `BroadcastByIDs` (network.go 495–504): as `BroadcastByAddresses`, with
each target's address taken from its peer ID. -/
def Network.BroadcastByIDs (n : Network) (message : Option Payload)
    (ids : List PeerID) : Network × List String :=
  match n.PrepareMessage message with
  | .error _ => (n, [])
  | .ok signed =>
      (ids.foldl (fun net id => (net.Write id.address signed).1) n, [])

/-- The address-collection `Range` of `BroadcastRandomly` (network.go
511–518): append each peer's address, and continue while
`len(addresses) <= K*3` — the length check happens after the append, so
the iteration stops only once the list has grown past `3K`. -/
def rangeCollect (peers : List (String × PeerClient)) (K : Nat)
    (acc : List String) : List String :=
  match peers with
  | [] => acc
  | (_, client) :: rest =>
      let acc' := acc ++ [client.address]
      if acc'.length ≤ K * 3 then rangeCollect rest K acc' else acc'

/-- The target list `BroadcastRandomly` forwards (network.go 508–529):
collect addresses from the registry, shuffle (`rand.Shuffle`, embedded as
a caller-supplied permutation), clamp `K` to the number collected, and
keep the first `K`. -/
def broadcastRandomlyTargets (peers : List (String × PeerClient)) (K : Nat)
    (shuffle : List String → List String) : List String :=
  let addresses := shuffle (rangeCollect peers K [])
  let K := if addresses.length < K then addresses.length else K
  addresses.take K

/-- `BroadcastRandomly` (network.go 508–530): forward the collected,
shuffled, clamped target list to `BroadcastByAddresses`. -/
def Network.BroadcastRandomly (n : Network) (message : Option Payload)
    (K : Nat) (shuffle : List String → List String) :
    Network × List String :=
  n.BroadcastByAddresses message (broadcastRandomlyTargets n.Peers K shuffle)

/-- Every frame appended to the buffered writers of a connection table. -/
def sentOf (conns : List (String × ConnState)) : List Message :=
  conns.foldr (fun kv acc => kv.2.sent ++ acc) []

/-- Every frame so far appended to any connection's buffered writer. -/
def Network.sentAll (n : Network) : List Message :=
  sentOf n.Connections

/-- A message with its nonce field blanked; two messages agree on all
fields the signature covers (and the correlation fields) iff their
`eraseNonce` images are equal. -/
def eraseNonce (m : Message) : Message :=
  { m with messageNonce := 0 }

/-! ## Helper lemmas on the concurrent-map embedding -/

theorem mapLoad_mapStore_self {α : Type} (m : List (String × α)) (k : String)
    (v : α) : mapLoad (mapStore m k v) k = some v := by
  induction m with
  | nil => simp [mapStore, mapLoad]
  | cons kv rest ih =>
      by_cases h : kv.1 = k
      · simp [mapStore, mapLoad, h]
      · simp [mapStore, mapLoad, h, ih]

theorem mapLoad_mapStore_ne {α : Type} (m : List (String × α)) (k k' : String)
    (v : α) (h : k ≠ k') :
    mapLoad (mapStore m k v) k' = mapLoad m k' := by
  induction m with
  | nil => simp [mapStore, mapLoad, h]
  | cons kv rest ih =>
      by_cases hk : kv.1 = k
      · simp [mapStore, mapLoad, hk, h, ih]
      · by_cases hk' : kv.1 = k'
        · simp [mapStore, mapLoad, hk, hk', Ne.symm h]
        · simp [mapStore, mapLoad, hk, hk', ih]

theorem mapStore_of_mapLoad_none {α : Type} (m : List (String × α))
    (k : String) (v : α) (h : mapLoad m k = none) :
    mapStore m k v = m ++ [(k, v)] := by
  induction m with
  | nil => simp [mapStore]
  | cons kv rest ih =>
      by_cases hk : kv.1 = k
      · simp [mapLoad, hk] at h
      · simp [mapLoad, hk] at h
        simp [mapStore, hk, ih h]

theorem mapDelete_of_mapLoad_none {α : Type} (m : List (String × α))
    (k : String) (h : mapLoad m k = none) : mapDelete m k = m := by
  induction m with
  | nil => simp [mapDelete]
  | cons kv rest ih =>
      by_cases hk : kv.1 = k
      · simp [mapLoad, hk] at h
      · simp [mapLoad, hk] at h
        simp [mapDelete, hk, ih h]

theorem mapDelete_append {α : Type} (m m' : List (String × α)) (k : String) :
    mapDelete (m ++ m') k = mapDelete m k ++ mapDelete m' k := by
  induction m with
  | nil => simp [mapDelete]
  | cons kv rest ih =>
      by_cases hk : kv.1 = k
      · simp [mapDelete, hk, ih]
      · simp [mapDelete, hk, ih]

/-! ## Concrete data used by witnesses and counterexamples -/

/-- A sample remote identity. -/
def sampleID : PeerID :=
  { publicKey := [1, 2], address := "tcp://peer:3000" }

/-- A sample envelope from `sampleID` carrying a `Ping`. -/
def sampleMsg : Message :=
  { message := MarshalAny .ping, sender := sampleID, signature := [],
    messageNonce := 0, requestNonce := 0, replyFlag := false }

/-- A registry of five peers, more than `3K + 1` for `K = 1`. -/
def fivePeers : List (String × PeerClient) :=
  [("a", createPeerClient "a"), ("b", createPeerClient "b"),
   ("c", createPeerClient "c"), ("d", createPeerClient "d"),
   ("e", createPeerClient "e")]

/-- A sample engine with five registered peers and no connections. -/
def sampleNet : Network :=
  { keysPriv := [7], Address := "tcp://self:3000",
    ID := { publicKey := publicKeyOf [7], address := "tcp://self:3000" },
    Peers := fivePeers, Connections := [],
    dialConn := fun _ => none, sendFails := fun _ => false }

/-! ## C1 — zero-length frames in the `Accept` read loop -/

/-- C1, counterexample. The claim says a zero-length frame is ignored and
the read loop continues with subsequent frames. On the concrete trace
`[emptyMsg, msg sampleMsg]` the loop hands no message on (the frame behind
the empty one is never read) and breaks out (third component `true`,
after which the deferred cleanup closes the `PeerClient`); only the
non-logging half of the claim holds (second component `[]`). -/
theorem accept_empty_frame_breaks_concrete :
    acceptReadLoop [.emptyMsg, .msg sampleMsg] = ([], [], true) := by
  rfl

/-- C1, amended: a zero-length frame (`errEmptyMsg`) is not logged as an
error — unlike any other receive error, which is logged — but it breaks
the `Accept` read loop exactly as other errors do: no subsequent frame is
read, and the deferred cleanup closes the `PeerClient` and connections. -/
theorem accept_empty_frame_silent_break (rest : List RecvResult)
    (e : String) (m : Message) :
    acceptReadLoop (.emptyMsg :: rest) = ([], [], true) ∧
    acceptReadLoop (.readErr e :: rest) = ([], [e], true) ∧
    acceptReadLoop (.msg m :: rest) =
      (m :: (acceptReadLoop rest).1, (acceptReadLoop rest).2.1,
       (acceptReadLoop rest).2.2) := by
  refine ⟨rfl, rfl, ?_⟩
  simp [acceptReadLoop]

/-! ## C2 — `BroadcastRandomly` sampling bound -/

theorem rangeCollect_eq_take (peers : List (String × PeerClient)) (K : Nat) :
    ∀ acc : List String, acc.length ≤ K * 3 →
      rangeCollect peers K acc =
        acc ++ (peers.map fun p => p.2.address).take (K * 3 + 1 - acc.length) := by
  induction peers with
  | nil => intro acc _; simp [rangeCollect]
  | cons p rest ih =>
      intro acc h
      simp only [rangeCollect, List.map_cons]
      by_cases hlen : (acc ++ [p.2.address]).length ≤ K * 3
      · rw [if_pos hlen, ih _ hlen]
        have hsucc : K * 3 + 1 - acc.length =
            (K * 3 + 1 - (acc ++ [p.2.address]).length) + 1 := by
          simp only [List.length_append, List.length_cons, List.length_nil]
          omega
        rw [hsucc, List.take_succ_cons, List.append_assoc]
        rfl
      · rw [if_neg hlen]
        have hone : K * 3 + 1 - acc.length = 1 := by
          simp only [List.length_append, List.length_cons, List.length_nil] at hlen
          omega
        rw [hone, List.take_succ_cons, List.take_zero]

/-- C2, counterexample. The claim says at most `3K` addresses are
collected before shuffling. With `K = 1` and five registered peers the
`Range` collects four addresses — the length check `len(addresses) <= K*3`
runs only after the append, so collection stops one past the bound. -/
theorem broadcastRandomly_collects_over_3K :
    rangeCollect fivePeers 1 [] = ["a", "b", "c", "d"] ∧
    ¬ (rangeCollect fivePeers 1 []).length ≤ 1 * 3 := by
  constructor
  · rfl
  · decide

/-- C2, amended: `BroadcastRandomly` collects at most `3K + 1` addresses —
the first `min(|registry|, 3K + 1)` in registry iteration order — then
shuffles them, and forwards exactly `min(K, number sampled)` of the
shuffled addresses to `BroadcastByAddresses`. -/
theorem broadcastRandomly_bounded_sample (n : Network) (K : Nat)
    (message : Option Payload) (shuffle : List String → List String)
    (hperm : (shuffle (rangeCollect n.Peers K [])).Perm
              (rangeCollect n.Peers K [])) :
    rangeCollect n.Peers K [] =
      (n.Peers.map fun p => p.2.address).take (K * 3 + 1) ∧
    (rangeCollect n.Peers K []).length ≤ K * 3 + 1 ∧
    (broadcastRandomlyTargets n.Peers K shuffle).length =
      min K (rangeCollect n.Peers K []).length ∧
    n.BroadcastRandomly message K shuffle =
      n.BroadcastByAddresses message (broadcastRandomlyTargets n.Peers K shuffle) := by
  have hcoll := rangeCollect_eq_take n.Peers K [] (by simp)
  simp only [List.nil_append, Nat.sub_zero] at hcoll
  refine ⟨hcoll, ?_, ?_, rfl⟩
  · rw [hcoll]
    exact le_trans (List.length_take_le _ _) (le_refl _)
  · have hlen := hperm.length_eq
    simp only [broadcastRandomlyTargets, List.length_take]
    by_cases hlt : (shuffle (rangeCollect n.Peers K [])).length < K
    · rw [if_pos hlt]
      omega
    · rw [if_neg hlt]
      omega

/-! ## C4 — per-connection nonce monotonicity -/

/-- An engine with one live connection at address `"a"`, its nonce counter
fresh, and no failing socket writes. -/
def connNet : Network :=
  { keysPriv := [7], Address := "tcp://self:3000",
    ID := { publicKey := publicKeyOf [7], address := "tcp://self:3000" },
    Peers := [], Connections := [("a", ⟨0, [], 0⟩)],
    dialConn := fun _ => none, sendFails := fun _ => false }

theorem writeAll_nonce_range (msgs : List Message) :
    ∀ (n : Network) (address : String) (cid : Nat) (sent0 : List Message)
      (c : Nat),
      mapLoad n.Connections address = some ⟨cid, sent0, c⟩ →
      n.sendFails address = false →
      c + msgs.length < 2 ^ 64 →
      ∃ st' : ConnState,
        mapLoad (n.writeAll address msgs).1.Connections address = some st' ∧
        st'.sent.map Message.messageNonce =
          sent0.map Message.messageNonce ++ List.range' (c + 1) msgs.length ∧
        st'.messageNonce = c + msgs.length := by
  induction msgs with
  | nil =>
      intro n address cid sent0 c hconn _ _
      exact ⟨⟨cid, sent0, c⟩, by simpa [Network.writeAll] using hconn,
             by simp, by simp⟩
  | cons m rest ih =>
      intro n address cid sent0 c hconn hok hbound
      have hlen : (m :: rest).length = rest.length + 1 := by simp
      have hlt : c + 1 < 18446744073709551616 := by
        rw [hlen] at hbound
        norm_num at hbound
        omega
      have hw : n.Write address m =
          ({ n with Connections := mapStore n.Connections address (⟨cid,
              sent0 ++ [{ m with messageNonce := c + 1 }], c + 1⟩ : ConnState) },
           .ok { m with messageNonce := c + 1 }) := by
        simp [Network.Write, hconn, sendMessage, hok, Nat.mod_eq_of_lt hlt, hlt]
      have hstep : (n.writeAll address (m :: rest)).1 =
          (({ n with Connections := mapStore n.Connections address (⟨cid,
              sent0 ++ [{ m with messageNonce := c + 1 }], c + 1⟩ : ConnState)
             }).writeAll address rest).1 := by
        simp [Network.writeAll, hw]
      obtain ⟨st', h1, h2, h3⟩ :=
        ih { n with Connections := mapStore n.Connections address (⟨cid,
              sent0 ++ [{ m with messageNonce := c + 1 }], c + 1⟩ : ConnState) }
           address cid (sent0 ++ [{ m with messageNonce := c + 1 }]) (c + 1)
           (mapLoad_mapStore_self _ _ _) hok
           (by rw [hlen] at hbound; omega)
      refine ⟨st', by rw [hstep]; exact h1, ?_, by rw [h3, hlen]; omega⟩
      rw [h2, hlen, List.range'_succ]
      simp

/-- C4: on a connection with a registered, fresh `ConnState` and a working
socket, the sequence of `message_nonce` values that `Write` stamps on the
frames appended to that connection is `1, 2, …, k` — strictly increasing
and starting at 1 — as long as the write count stays below the `uint64`
wrap at `2^64`. -/
theorem write_nonce_strictly_increasing (n : Network) (address : String)
    (msgs : List Message) (cid : Nat)
    (hconn : mapLoad n.Connections address = some ⟨cid, [], 0⟩)
    (hok : n.sendFails address = false)
    (hbound : msgs.length < 2 ^ 64) :
    ∃ st' : ConnState,
      mapLoad (n.writeAll address msgs).1.Connections address = some st' ∧
      st'.sent.map Message.messageNonce = List.range' 1 msgs.length ∧
      List.Pairwise (· < ·) (st'.sent.map Message.messageNonce) ∧
      (msgs ≠ [] → (st'.sent.map Message.messageNonce).head? = some 1) := by
  obtain ⟨st', h1, h2, h3⟩ :=
    writeAll_nonce_range msgs n address cid [] 0 hconn hok (by omega)
  have h2' : st'.sent.map Message.messageNonce = List.range' 1 msgs.length := by
    simpa using h2
  refine ⟨st', h1, h2', ?_, ?_⟩
  · rw [h2']
    exact List.pairwise_lt_range' 1 msgs.length
  · intro hne
    rw [h2']
    cases msgs with
    | nil => exact absurd rfl hne
    | cons a l => rw [List.length_cons, List.range'_succ]; rfl

/-- Witness for C4: three writes on `connNet`'s fresh connection stamp
nonces `[1, 2, 3]`. -/
theorem write_nonce_strictly_increasing_witness :
    (mapLoad connNet.Connections "a" = some ⟨0, [], 0⟩ ∧
     connNet.sendFails "a" = false ∧
     ([sampleMsg, sampleMsg, sampleMsg] : List Message).length < 2 ^ 64) ∧
    (∃ st' : ConnState,
      mapLoad (connNet.writeAll "a"
          [sampleMsg, sampleMsg, sampleMsg]).1.Connections "a" = some st' ∧
      st'.sent.map Message.messageNonce = List.range' 1 3 ∧
      List.Pairwise (· < ·) (st'.sent.map Message.messageNonce) ∧
      (([sampleMsg, sampleMsg, sampleMsg] : List Message) ≠ [] →
        (st'.sent.map Message.messageNonce).head? = some 1)) :=
  ⟨⟨rfl, rfl, by norm_num⟩,
   write_nonce_strictly_increasing connNet "a" [sampleMsg, sampleMsg, sampleMsg]
     0 rfl rfl (by norm_num)⟩

/-! ## C5 / C10 — `dispatchMessage` reply precedence and error exits -/

/-- A client whose incoming gate is signaled and which has a
`RequestState` registered under nonce 5. -/
def replyClient : PeerClient :=
  { address := "tcp://peer:3000", id := some sampleID, outgoingReady := true,
    incomingReady := true, requests := [5], closeSignalFired := false }

/-- A decodable reply envelope correlated to request nonce 5. -/
def replyMsg : Message :=
  { message := MarshalAny (.test [9]), sender := sampleID, signature := [],
    messageNonce := 0, requestNonce := 5, replyFlag := true }

/-- An envelope whose opaque payload has an unregistered type URL, so
`UnmarshalAny` fails on it. -/
def garbageMsg : Message :=
  { message := { typeUrl := "unknown.Type", value := [1] }, sender := sampleID,
    signature := [], messageNonce := 0, requestNonce := 0, replyFlag := false }

/-- C5: when the client's incoming gate is signaled and the envelope
decodes, has `request_nonce > 0`, has the reply flag set, and a
`RequestState` is registered under that nonce, `dispatchMessage` delivers
the decoded payload to that request's slot — or drops it when the close
signal has fired first — and returns without reaching the payload switch,
so no plugin `Receive` callback (and no `handleBytes`) runs. -/
theorem dispatch_reply_precedence (client : PeerClient) (msg : Message)
    (p : Payload)
    (hready : client.incomingReady = true)
    (hdec : UnmarshalAny msg.message = some p)
    (hnonce : 0 < msg.requestNonce)
    (hflag : msg.replyFlag = true)
    (hreg : msg.requestNonce ∈ client.requests) :
    Network.dispatchMessage client msg =
      (if client.closeSignalFired then
        DispatchEffect.replyDroppedClosed msg.requestNonce
       else DispatchEffect.replyDelivered msg.requestNonce p) ∧
    (∀ q k, Network.dispatchMessage client msg ≠ .pluginDispatch q k) ∧
    (∀ d, Network.dispatchMessage client msg ≠ .handleBytes d) := by
  have h1 : Network.dispatchMessage client msg =
      (if client.closeSignalFired then
        DispatchEffect.replyDroppedClosed msg.requestNonce
       else DispatchEffect.replyDelivered msg.requestNonce p) := by
    simp [Network.dispatchMessage, hready, hdec, hnonce, hflag, hreg]
  refine ⟨h1, ?_, ?_⟩
  · intro q k
    rw [h1]
    by_cases hc : client.closeSignalFired <;> simp [hc]
  · intro d
    rw [h1]
    by_cases hc : client.closeSignalFired <;> simp [hc]

/-- Witness for C5 at `replyClient` / `replyMsg`. -/
theorem dispatch_reply_precedence_witness :
    (replyClient.incomingReady = true ∧
     UnmarshalAny replyMsg.message = some (.test [9]) ∧
     0 < replyMsg.requestNonce ∧
     replyMsg.replyFlag = true ∧
     replyMsg.requestNonce ∈ replyClient.requests) ∧
    (Network.dispatchMessage replyClient replyMsg =
      (if replyClient.closeSignalFired then
        DispatchEffect.replyDroppedClosed replyMsg.requestNonce
       else DispatchEffect.replyDelivered replyMsg.requestNonce (.test [9])) ∧
     (∀ q k, Network.dispatchMessage replyClient replyMsg ≠
        .pluginDispatch q k) ∧
     (∀ d, Network.dispatchMessage replyClient replyMsg ≠ .handleBytes d)) :=
  ⟨⟨rfl, by decide, by decide, rfl, by decide⟩,
   dispatch_reply_precedence replyClient replyMsg (.test [9]) rfl (by decide)
     (by decide) rfl (by decide)⟩

/-- C10: with the incoming gate signaled, an envelope whose opaque payload
fails to decode makes `dispatchMessage` log the error and return without
delivering to any `RequestState` slot and without any plugin dispatch;
with the gate not signaled, `dispatchMessage` returns with no effect at
all. -/
theorem dispatch_not_ready_and_decode_error (client : PeerClient)
    (msg : Message) :
    (client.incomingReady = true → UnmarshalAny msg.message = none →
      Network.dispatchMessage client msg = .logDecodeError ∧
      (∀ k p, Network.dispatchMessage client msg ≠ .replyDelivered k p) ∧
      (∀ q k, Network.dispatchMessage client msg ≠ .pluginDispatch q k)) ∧
    (client.incomingReady = false →
      Network.dispatchMessage client msg = .dropNotReady) := by
  constructor
  · intro hready hdec
    have h1 : Network.dispatchMessage client msg = .logDecodeError := by
      simp [Network.dispatchMessage, hready, hdec]
    exact ⟨h1, fun k p => by simp [h1], fun q k => by simp [h1]⟩
  · intro hready
    simp [Network.dispatchMessage, hready]

/-- Witness for C10: the decode-error half at `replyClient` /
`garbageMsg`, and the not-ready half at a freshly created client. -/
theorem dispatch_not_ready_and_decode_error_witness :
    (replyClient.incomingReady = true ∧
     UnmarshalAny garbageMsg.message = none ∧
     (Network.dispatchMessage replyClient garbageMsg = .logDecodeError ∧
      (∀ k p, Network.dispatchMessage replyClient garbageMsg ≠
        .replyDelivered k p) ∧
      (∀ q k, Network.dispatchMessage replyClient garbageMsg ≠
        .pluginDispatch q k))) ∧
    ((createPeerClient "x").incomingReady = false ∧
     Network.dispatchMessage (createPeerClient "x") sampleMsg =
       .dropNotReady) :=
  ⟨⟨rfl, by decide,
    (dispatch_not_ready_and_decode_error replyClient garbageMsg).1 rfl
      (by decide)⟩,
   ⟨rfl, (dispatch_not_ready_and_decode_error (createPeerClient "x")
      sampleMsg).2 rfl⟩⟩

/-! ## C7 — `Client` rolls back the registry on dial failure -/

/-- C7: when `Client(A)` installs a new registry entry (no peer was
registered under `A`), `A` is not the node's own address, and the dial
fails, the error is returned with the new entry removed: the registry is
exactly as before the call, no `PeerClient` for `A` remains, and no
`ConnState` for `A` was stored. -/
theorem client_dial_failure_rollback (n : Network) (A : String)
    (hself : A ≠ n.Address)
    (hnew : mapLoad n.Peers A = none)
    (hdial : n.dialConn A = none) :
    (n.Client A).2 = .error "network: dial failed" ∧
    (n.Client A).1.Peers = n.Peers ∧
    mapLoad (n.Client A).1.Peers A = none ∧
    (n.Client A).1.Connections = n.Connections := by
  have hPeers : mapDelete (mapStore n.Peers A (createPeerClient A)) A
      = n.Peers := by
    rw [mapStore_of_mapLoad_none n.Peers A _ hnew, mapDelete_append,
        mapDelete_of_mapLoad_none n.Peers A hnew]
    simp [mapDelete]
  simp [Network.Client, ToUnifiedAddress, hself, hnew, Network.Dial, hdial,
        hPeers]

/-- Witness for C7 at `sampleNet` (whose transport refuses every dial)
and the unregistered address `tcp://other:4000`. -/
theorem client_dial_failure_rollback_witness :
    ("tcp://other:4000" ≠ sampleNet.Address ∧
     mapLoad sampleNet.Peers "tcp://other:4000" = none ∧
     sampleNet.dialConn "tcp://other:4000" = none) ∧
    ((sampleNet.Client "tcp://other:4000").2 =
        .error "network: dial failed" ∧
     (sampleNet.Client "tcp://other:4000").1.Peers = sampleNet.Peers ∧
     mapLoad (sampleNet.Client "tcp://other:4000").1.Peers
        "tcp://other:4000" = none ∧
     (sampleNet.Client "tcp://other:4000").1.Connections =
        sampleNet.Connections) :=
  ⟨⟨by decide, by decide, rfl⟩,
   client_dial_failure_rollback sampleNet "tcp://other:4000" (by decide)
     (by decide) rfl⟩

/-! ## C8 — sender-mismatch drop in `Accept` -/

theorem acceptRun_learned (id : PeerID) (msgs : List Message) :
    acceptRun (some id) msgs =
      (some id, msgs.filter fun m => idEquals id m.sender) := by
  induction msgs with
  | nil => rfl
  | cons m rest ih =>
      simp only [acceptRun, acceptStep, ih, List.filter_cons]
      rcases Bool.eq_false_or_eq_true (idEquals id m.sender) with h | h <;>
        simp [h]

/-- C8: once the client's ID has been learned from the first received
envelope, a later envelope whose sender does not equal the learned ID
(`peer.ID.Equals`, i.e. public-key equality) is never submitted to the
per-peer ordered executor — so it never reaches `dispatchMessage` — while
the learned ID is unchanged and the submitted messages are exactly the
first envelope followed by the later ones whose sender matches. -/
theorem accept_sender_mismatch_drop (m0 : Message) (rest : List Message)
    (m : Message) (hm : m ∈ rest)
    (hne : idEquals m0.sender m.sender = false) :
    (acceptRun none (m0 :: rest)).1 = some m0.sender ∧
    (acceptRun none (m0 :: rest)).2 =
      m0 :: rest.filter (fun m' => idEquals m0.sender m'.sender) ∧
    m ∉ (acceptRun none (m0 :: rest)).2 := by
  have hrun : acceptRun none (m0 :: rest) =
      (some m0.sender,
       m0 :: rest.filter fun m' => idEquals m0.sender m'.sender) := by
    simp [acceptRun, acceptStep, acceptRun_learned]
  refine ⟨by rw [hrun], by rw [hrun], ?_⟩
  rw [hrun]
  intro hmem
  rcases List.mem_cons.mp hmem with heq | hfil
  · subst heq
    simp [idEquals] at hne
  · exact absurd (List.of_mem_filter hfil) (by simp [hne])

/-- An envelope from a different identity than `sampleID`. -/
def strangerMsg : Message :=
  { message := MarshalAny .ping,
    sender := { publicKey := [9, 9], address := "tcp://mallory:3000" },
    signature := [], messageNonce := 0, requestNonce := 0,
    replyFlag := false }

/-- Witness for C8: after `sampleMsg` establishes the ID, `strangerMsg`
(different public key) is dropped. -/
theorem accept_sender_mismatch_drop_witness :
    (strangerMsg ∈ [strangerMsg] ∧
     idEquals sampleMsg.sender strangerMsg.sender = false) ∧
    ((acceptRun none [sampleMsg, strangerMsg]).1 = some sampleMsg.sender ∧
     (acceptRun none [sampleMsg, strangerMsg]).2 =
       sampleMsg :: [strangerMsg].filter
         (fun m' => idEquals sampleMsg.sender m'.sender) ∧
     strangerMsg ∉ (acceptRun none [sampleMsg, strangerMsg]).2) :=
  ⟨⟨by decide, by decide⟩,
   accept_sender_mismatch_drop sampleMsg [strangerMsg] strangerMsg
     (by decide) (by decide)⟩

/-- Witness for the amended C2 at `sampleNet`, `K = 1`, identity shuffle. -/
theorem broadcastRandomly_bounded_sample_witness :
    (id (rangeCollect sampleNet.Peers 1 [])).Perm
      (rangeCollect sampleNet.Peers 1 []) ∧
    (rangeCollect sampleNet.Peers 1 [] =
      (sampleNet.Peers.map fun p => p.2.address).take (1 * 3 + 1) ∧
    (rangeCollect sampleNet.Peers 1 []).length ≤ 1 * 3 + 1 ∧
    (broadcastRandomlyTargets sampleNet.Peers 1 id).length =
      min 1 (rangeCollect sampleNet.Peers 1 []).length ∧
    sampleNet.BroadcastRandomly none 1 id =
      sampleNet.BroadcastByAddresses none
        (broadcastRandomlyTargets sampleNet.Peers 1 id)) :=
  ⟨List.Perm.refl _,
   broadcastRandomly_bounded_sample sampleNet 1 none id (List.Perm.refl _)⟩

/-! ## C6 — `PrepareMessage` signature round-trip -/

theorem unmarshal_marshal (P : Payload) :
    UnmarshalAny (MarshalAny P) = some P := by
  cases P <;> simp [MarshalAny, UnmarshalAny]

theorem verify_sign (k d : Bytes) :
    verifyData (publicKeyOf k) d (signData k d) = true := by
  simp [verifyData, publicKeyOf, signData]

/-- C6: for every payload `P`, on a node whose identity carries the public
key of its own keypair, `PrepareMessage(P)` yields an envelope whose
signature verifies (under the modelled signature and hash policies)
against the sender's declared public key over the serialization of the
sender identity and the raw payload bytes, and whose payload field
decodes back to `P`. (In the embedding marshalling is total, so the
claim's "marshals successfully" premise is every `P : Payload`.) -/
theorem prepare_message_signature_roundtrip (n : Network) (P : Payload)
    (env : Message)
    (hid : n.ID.publicKey = publicKeyOf n.keysPriv)
    (hprep : n.PrepareMessage (some P) = .ok env) :
    verifyMessage env = true ∧ UnmarshalAny env.message = some P := by
  have hform : n.PrepareMessage (some P) = .ok
      { message := MarshalAny P, sender := n.ID,
        signature :=
          signData n.keysPriv (SerializeMessage n.ID (MarshalAny P).value),
        messageNonce := 0, requestNonce := 0, replyFlag := false } := rfl
  rw [hform] at hprep
  injection hprep with henv
  subst henv
  constructor
  · show verifyData n.ID.publicKey
      (SerializeMessage n.ID (MarshalAny P).value)
      (signData n.keysPriv (SerializeMessage n.ID (MarshalAny P).value)) = true
    rw [hid]
    exact verify_sign _ _
  · exact unmarshal_marshal P

/-- The envelope `PrepareMessage` produces for payload `test [1, 2]` on a
node with private key `[7]` at `tcp://self:3000`. -/
def prepEnv : Message :=
  { message := MarshalAny (.test [1, 2]),
    sender := { publicKey := publicKeyOf [7], address := "tcp://self:3000" },
    signature := signData [7]
      (SerializeMessage
        { publicKey := publicKeyOf [7], address := "tcp://self:3000" }
        [1, 2]),
    messageNonce := 0, requestNonce := 0, replyFlag := false }

/-- Witness for C6 at `sampleNet` and payload `test [1, 2]`. -/
theorem prepare_message_signature_roundtrip_witness :
    (sampleNet.ID.publicKey = publicKeyOf sampleNet.keysPriv ∧
     sampleNet.PrepareMessage (some (.test [1, 2])) = .ok prepEnv) ∧
    (verifyMessage prepEnv = true ∧
     UnmarshalAny prepEnv.message = some (.test [1, 2])) :=
  ⟨⟨rfl, rfl⟩,
   prepare_message_signature_roundtrip sampleNet (.test [1, 2]) prepEnv
     rfl rfl⟩

/-! ## C9 — `Write` mutates only the nonce; broadcasts reuse one envelope -/

theorem sentOf_cons (kv : String × ConnState)
    (rest : List (String × ConnState)) :
    sentOf (kv :: rest) = kv.2.sent ++ sentOf rest := rfl

theorem mem_sentOf_mapStore (conns : List (String × ConnState)) (k : String)
    (st : ConnState) (f : Message) (hf : f ∈ sentOf (mapStore conns k st)) :
    f ∈ st.sent ∨ f ∈ sentOf conns := by
  induction conns with
  | nil =>
      simp only [mapStore, sentOf_cons, List.mem_append] at hf
      rcases hf with h | h
      · exact Or.inl h
      · cases h
  | cons kv rest ih =>
      by_cases h : kv.1 = k
      · simp only [mapStore, if_pos h, sentOf_cons, List.mem_append] at hf
        rcases hf with h1 | h2
        · exact Or.inl h1
        · exact Or.inr (by simp [sentOf_cons, h2])
      · simp only [mapStore, if_neg h, sentOf_cons, List.mem_append] at hf
        rcases hf with h1 | h2
        · exact Or.inr (by simp [sentOf_cons, h1])
        · rcases ih h2 with h3 | h4
          · exact Or.inl h3
          · exact Or.inr (by simp [sentOf_cons, h4])

theorem mem_sentOf_of_mapLoad (conns : List (String × ConnState))
    (k : String) (st : ConnState) (hload : mapLoad conns k = some st)
    (f : Message) (hf : f ∈ st.sent) : f ∈ sentOf conns := by
  induction conns with
  | nil => simp [mapLoad] at hload
  | cons kv rest ih =>
      by_cases h : kv.1 = k
      · simp only [mapLoad, if_pos h, Option.some.injEq] at hload
        subst hload
        simp [sentOf_cons, hf]
      · simp only [mapLoad, if_neg h] at hload
        simp [sentOf_cons, ih hload]

/-- Any frame present after one `Write` was either already buffered or is
the written message with only its nonce rewritten. -/
theorem mem_sentAll_write (n : Network) (a : String) (m f : Message)
    (hf : f ∈ (n.Write a m).1.sentAll) :
    f ∈ n.sentAll ∨ eraseNonce f = eraseNonce m := by
  rcases hload : mapLoad n.Connections a with _ | st
  · have hn : (n.Write a m).1 = n := by simp [Network.Write, hload]
    rw [hn] at hf
    exact Or.inl hf
  · by_cases hfail : n.sendFails a
    · have hn : (n.Write a m).1 = { n with Connections := (mapStore
          n.Connections a
            { st with messageNonce := (st.messageNonce + 1) % 2 ^ 64 }) } := by
        simp [Network.Write, hload, sendMessage, hfail]
      rw [hn] at hf
      rcases mem_sentOf_mapStore _ _ _ _ hf with h1 | h2
      · exact Or.inl (mem_sentOf_of_mapLoad _ _ _ hload _ h1)
      · exact Or.inl h2
    · have hn : (n.Write a m).1 = { n with Connections := (mapStore
          n.Connections a
            { st with
                sent := st.sent ++
                  [{ m with messageNonce := (st.messageNonce + 1) % 2 ^ 64 }],
                messageNonce := (st.messageNonce + 1) % 2 ^ 64 }) } := by
        simp [Network.Write, hload, sendMessage, hfail]
      rw [hn] at hf
      rcases mem_sentOf_mapStore _ _ _ _ hf with h1 | h2
      · rcases List.mem_append.mp h1 with h1a | h1b
        · exact Or.inl (mem_sentOf_of_mapLoad _ _ _ hload _ h1a)
        · rcases List.mem_singleton.mp h1b with rfl
          exact Or.inr rfl
      · exact Or.inl h2

theorem mem_sentAll_broadcast_fold (signed : Message) (addrs : List String) :
    ∀ (n : Network) (f : Message),
      f ∈ (addrs.foldl (fun net address => (net.Write address signed).1)
            n).sentAll →
      f ∈ n.sentAll ∨ eraseNonce f = eraseNonce signed := by
  induction addrs with
  | nil => intro n f hf; exact Or.inl hf
  | cons a rest ih =>
      intro n f hf
      simp only [List.foldl_cons] at hf
      rcases ih _ _ hf with h1 | h2
      · exact mem_sentAll_write n a signed f h1
      · exact Or.inr h2

/-- C9: `Write` leaves every field of the caller's message unchanged
except `MessageNonce` — payload, sender, signature, request nonce and
reply flag are preserved — the signature check does not depend on the
nonce at all, and after `BroadcastByAddresses` every newly buffered frame
is the one prepared, signed envelope up to its per-target nonce. -/
theorem write_frame_effect (n : Network) (address : String)
    (msg msg' : Message)
    (hw : (n.Write address msg).2 = .ok msg')
    (n2 : Network) (P : Payload) (signed : Message) (addrs : List String)
    (hp : n2.PrepareMessage (some P) = .ok signed) :
    msg'.message = msg.message ∧ msg'.sender = msg.sender ∧
    msg'.signature = msg.signature ∧
    msg'.requestNonce = msg.requestNonce ∧
    msg'.replyFlag = msg.replyFlag ∧
    (∀ (m : Message) (k : Nat),
      verifyMessage { m with messageNonce := k } = verifyMessage m) ∧
    (∀ f ∈ ((n2.BroadcastByAddresses (some P) addrs).1).sentAll,
      f ∈ n2.sentAll ∨ eraseNonce f = eraseNonce signed) := by
  have h5 : msg' = { msg with messageNonce := msg'.messageNonce } := by
    rcases hload : mapLoad n.Connections address with _ | st
    · simp [Network.Write, hload] at hw
    · by_cases hfail : n.sendFails address
      · simp [Network.Write, hload, sendMessage, hfail] at hw
      · have hn : (n.Write address msg).2 =
            .ok { msg with messageNonce := (st.messageNonce + 1) % 2 ^ 64 } := by
          simp [Network.Write, hload, sendMessage, hfail]
        rw [hn] at hw
        injection hw with h
        rw [← h]
  refine ⟨by rw [h5], by rw [h5], by rw [h5], by rw [h5], by rw [h5],
          fun m k => rfl, ?_⟩
  have hb : (n2.BroadcastByAddresses (some P) addrs).1 =
      addrs.foldl (fun net address => (net.Write address signed).1) n2 := by
    simp [Network.BroadcastByAddresses, hp]
  intro f hf
  rw [hb] at hf
  exact mem_sentAll_broadcast_fold signed addrs n2 f hf

/-- The message `Write` hands back for `sampleMsg` on a fresh connection:
only the nonce differs. -/
def wMsg : Message :=
  { sampleMsg with messageNonce := 1 }

/-- Witness for C9: one `Write` of `sampleMsg` on `connNet`, and a
single-target broadcast of `test [1, 2]` reusing `prepEnv`. -/
theorem write_frame_effect_witness :
    ((connNet.Write "a" sampleMsg).2 = .ok wMsg ∧
     connNet.PrepareMessage (some (.test [1, 2])) = .ok prepEnv) ∧
    (wMsg.message = sampleMsg.message ∧ wMsg.sender = sampleMsg.sender ∧
     wMsg.signature = sampleMsg.signature ∧
     wMsg.requestNonce = sampleMsg.requestNonce ∧
     wMsg.replyFlag = sampleMsg.replyFlag ∧
     (∀ (m : Message) (k : Nat),
       verifyMessage { m with messageNonce := k } = verifyMessage m) ∧
     (∀ f ∈ ((connNet.BroadcastByAddresses (some (.test [1, 2]))
          ["a"]).1).sentAll,
       f ∈ connNet.sentAll ∨ eraseNonce f = eraseNonce prepEnv)) :=
  ⟨⟨rfl, rfl⟩,
   write_frame_effect connNet "a" sampleMsg wMsg rfl connNet (.test [1, 2])
     prepEnv ["a"] rfl⟩

/-! ## C3 — partial-failure semantics of the broadcast operations -/

/-- `Write` touches only the `Connections` field of the engine. -/
theorem write_env_preserved (n : Network) (b : String) (m : Message) :
    ((n.Write b m).1).sendFails = n.sendFails ∧
    ((n.Write b m).1).keysPriv = n.keysPriv ∧
    ((n.Write b m).1).ID = n.ID ∧
    ((n.Write b m).1).Peers = n.Peers := by
  rcases hload : mapLoad n.Connections b with _ | st
  · simp [Network.Write, hload]
  · by_cases hfail : n.sendFails b <;>
      simp [Network.Write, hload, sendMessage, hfail]

/-- A `Write` to one address leaves every other connection untouched. -/
theorem write_other_conn (n : Network) (b a : String) (m : Message)
    (hne : b ≠ a) :
    mapLoad ((n.Write b m).1).Connections a = mapLoad n.Connections a := by
  rcases hload : mapLoad n.Connections b with _ | st
  · simp [Network.Write, hload]
  · by_cases hfail : n.sendFails b <;>
      simp [Network.Write, hload, sendMessage, hfail,
            mapLoad_mapStore_ne _ _ _ _ hne]

/-- The log accumulator of `broadcastFold` only ever grows by appending:
running with initial logs is running with empty logs, prefixed. -/
theorem broadcastFold_acc (message : Option Payload)
    (peers : List (String × PeerClient)) :
    ∀ (n : Network) (logs : List String),
      broadcastFold message (n, logs) peers =
        ((broadcastFold message (n, []) peers).1,
         logs ++ (broadcastFold message (n, []) peers).2) := by
  induction peers with
  | nil => intro n logs; simp [broadcastFold]
  | cons kv rest ih =>
      intro n logs
      rcases htell : kv.2.Tell n message with ⟨net', r⟩
      cases r with
      | error e =>
          simp only [broadcastFold, htell]
          rw [ih net' (logs ++ [logLine kv.2.address e]),
              ih net' ([] ++ [logLine kv.2.address e])]
          simp
      | ok m =>
          simp only [broadcastFold, htell]
          rw [ih net' logs, ih net' []]

/-- Despite any failures among the earlier targets, the final target of a
`BroadcastByAddresses`-style fold still gets the frame: its connection's
buffer grows by exactly the signed envelope with a fresh nonce. -/
theorem broadcast_fold_last (signed : Message) (addrs : List String) :
    ∀ (n : Network) (a : String) (st : ConnState),
      a ∉ addrs →
      mapLoad n.Connections a = some st →
      n.sendFails a = false →
      ∃ st' : ConnState,
        mapLoad (((addrs ++ [a]).foldl
            (fun net address => (net.Write address signed).1) n)).Connections
            a = some st' ∧
        st'.sent = st.sent ++
          [{ signed with messageNonce := (st.messageNonce + 1) % 2 ^ 64 }] := by
  induction addrs with
  | nil =>
      intro n a st _ hconn hok
      refine ⟨⟨st.connId, st.sent ++
        [{ signed with messageNonce := (st.messageNonce + 1) % 2 ^ 64 }],
        (st.messageNonce + 1) % 2 ^ 64⟩, ?_, rfl⟩
      simp [Network.Write, hconn, sendMessage, hok, mapLoad_mapStore_self]
  | cons b rest ih =>
      intro n a st hnot hconn hok
      have hne : b ≠ a := by
        intro h
        exact hnot (h ▸ List.mem_cons_self b rest)
      simp only [List.cons_append, List.foldl_cons]
      refine ih ((n.Write b signed).1) a st
        (fun h => hnot (List.mem_cons_of_mem _ h)) ?_ ?_
      · rw [write_other_conn n b a signed hne]
        exact hconn
      · rw [(write_env_preserved n b signed).1]
        exact hok

/-- An engine with one registered (never-connected) peer `"x"`, live
connections at `"a"` and `"b"`, and a socket that fails every write to
`"b"`. -/
def failNet : Network :=
  { keysPriv := [7], Address := "tcp://self:3000",
    ID := { publicKey := publicKeyOf [7], address := "tcp://self:3000" },
    Peers := [("x", createPeerClient "x")],
    Connections := [("a", ⟨0, [], 0⟩), ("b", ⟨1, [], 0⟩)],
    dialConn := fun _ => none, sendFails := fun s => s == "b" }

/-- C3, counterexample. The claim says each per-target failure in every
broadcast operation is logged. On `failNet`, `BroadcastByAddresses` to the
single target `"b"` produces no log line at all, although the write to
`"b"` failed: the target's nonce counter was consumed (`messageNonce = 1`)
but no frame was buffered (`sent = []`). -/
theorem broadcastByAddresses_unlogged_failure :
    (failNet.BroadcastByAddresses (some (.test [1])) ["b"]).2 = [] ∧
    mapLoad (failNet.BroadcastByAddresses
        (some (.test [1])) ["b"]).1.Connections "b" =
      some ⟨1, [], 1⟩ := by
  constructor
  · rfl
  · decide

/-- C3, amended: a write failure for a single target never aborts any of
the three broadcast operations — every remaining target is still written
to — and `Broadcast` logs each per-target `Tell` failure and continues;
but `BroadcastByAddresses` and `BroadcastByIDs` discard per-target `Write`
errors without logging them. -/
theorem broadcast_partial_failure (n : Network) (message : Option Payload)
    (addrs : List String) (ids : List PeerID) (signed : Message)
    (hp : n.PrepareMessage message = .ok signed)
    (a : String) (st : ConnState) (ha : a ∉ addrs)
    (hconn : mapLoad n.Connections a = some st)
    (hok : n.sendFails a = false)
    (n3 : Network) (k0 : String) (c0 : PeerClient)
    (rest : List (String × PeerClient)) (net1 : Network) (e : String)
    (hpeers : n3.Peers = (k0, c0) :: rest)
    (htell : c0.Tell n3 message = (net1, .error e)) :
    (n.BroadcastByAddresses message addrs).2 = [] ∧
    (n.BroadcastByIDs message ids).2 = [] ∧
    n.BroadcastByIDs message ids =
      n.BroadcastByAddresses message (ids.map PeerID.address) ∧
    (∃ st' : ConnState,
      mapLoad ((n.BroadcastByAddresses message
          (addrs ++ [a])).1).Connections a = some st' ∧
      st'.sent = st.sent ++
        [{ signed with messageNonce := (st.messageNonce + 1) % 2 ^ 64 }]) ∧
    n3.Broadcast message =
      ((broadcastFold message (net1, []) rest).1,
       logLine c0.address e :: (broadcastFold message (net1, []) rest).2) := by
  refine ⟨?_, ?_, ?_, ?_, ?_⟩
  · simp [Network.BroadcastByAddresses, hp]
  · simp [Network.BroadcastByIDs, hp]
  · simp [Network.BroadcastByIDs, Network.BroadcastByAddresses, hp,
          List.foldl_map]
  · have hb : (n.BroadcastByAddresses message (addrs ++ [a])).1 =
        (addrs ++ [a]).foldl (fun net address => (net.Write address signed).1)
          n := by
      simp [Network.BroadcastByAddresses, hp]
    rw [hb]
    exact broadcast_fold_last signed addrs n a st ha hconn hok
  · show broadcastFold message (n3, []) n3.Peers = _
    rw [hpeers]
    simp only [broadcastFold, htell]
    rw [broadcastFold_acc message rest net1 ([] ++ [logLine c0.address e])]
    simp

/-- Witness for the amended C3 on `failNet`: the target `"a"` is still
written to although the broadcast's other target `"b"` fails, and the
never-ready peer `"x"` makes `Broadcast` log and continue. -/
theorem broadcast_partial_failure_witness :
    (failNet.PrepareMessage (some (.test [1, 2])) = .ok prepEnv ∧
     "a" ∉ ["b"] ∧
     mapLoad failNet.Connections "a" = some ⟨0, [], 0⟩ ∧
     failNet.sendFails "a" = false ∧
     failNet.Peers = ("x", createPeerClient "x") :: [] ∧
     (createPeerClient "x").Tell failNet (some (.test [1, 2])) =
       (failNet, .error "network: peer not ready")) ∧
    ((failNet.BroadcastByAddresses (some (.test [1, 2])) ["b"]).2 = [] ∧
     (failNet.BroadcastByIDs (some (.test [1, 2])) [sampleID]).2 = [] ∧
     failNet.BroadcastByIDs (some (.test [1, 2])) [sampleID] =
       failNet.BroadcastByAddresses (some (.test [1, 2]))
         ([sampleID].map PeerID.address) ∧
     (∃ st' : ConnState,
       mapLoad ((failNet.BroadcastByAddresses (some (.test [1, 2]))
           (["b"] ++ ["a"])).1).Connections "a" = some st' ∧
       st'.sent = ([] : List Message) ++
         [{ prepEnv with messageNonce := (0 + 1) % 2 ^ 64 }]) ∧
     failNet.Broadcast (some (.test [1, 2])) =
       ((broadcastFold (some (.test [1, 2])) (failNet, []) []).1,
        logLine (createPeerClient "x").address "network: peer not ready" ::
          (broadcastFold (some (.test [1, 2])) (failNet, []) []).2)) :=
  ⟨⟨rfl, by decide, rfl, by decide, rfl, rfl⟩,
   broadcast_partial_failure failNet (some (.test [1, 2])) ["b"] [sampleID]
     prepEnv rfl "a" ⟨0, [], 0⟩ (by decide) rfl (by decide) failNet "x"
     (createPeerClient "x") [] failNet "network: peer not ready" rfl rfl⟩

end Noise
